import Mathlib

/-!
Verification of the smart-mailer repository (smart_mailer.py, server.py).

The Python source is shallowly embedded below:
pure string manipulation becomes functions on `String`/`List Char`,
the file system becomes an explicit map `String → Option String`
(`none` = the file does not exist), the SMTP transport becomes an
explicit `Except` outcome parameter, and a call that can raise a
Python exception returns `Except Unit _` (`.error ()` = the raise).
Character classes follow the ASCII reading of the regex classes.
-/

set_option maxRecDepth 10000

namespace SmartMailer

/-- Python `str.endswith(suffix)`. -/
def strEndsWith (s sfx : String) : Bool :=
  sfx.data.isSuffixOf s.data

/-! ### Email validity: `EMAIL_REGEX` and `is_valid_email`

The source regex is `^[\w\.-]+@[a-zA-Z\d\.-]+\.[a-zA-Z]{2,}$`, run with
`re.match`.  The embedding is a backtracking matcher specialised to that
pattern: `matchClassPlus p cs k` holds iff some nonempty prefix of `cs`
is all `p`-characters and the continuation `k` accepts the rest (`[c]+`),
`matchClassStar` likewise for `[c]*`, and `matchEndDollar` is Python's
un-MULTILINE `$`, which accepts the end of the string or a position just
before a single final newline. -/

/-- `\w` of the source regex, ASCII reading: letters, digits, underscore. -/
def isWordChar (c : Char) : Bool :=
  c.isAlpha || c.isDigit || c == '_'

/-- The class `[\w\.-]` of the local part. -/
def isLocalChar (c : Char) : Bool :=
  isWordChar c || c == '.' || c == '-'

/-- The class `[a-zA-Z\d\.-]` of the domain part. -/
def isDomainChar (c : Char) : Bool :=
  c.isAlpha || c.isDigit || c == '.' || c == '-'

/-- `[c]+ k`: a nonempty run of `p`-characters, then the continuation. -/
def matchClassPlus (p : Char → Bool) : List Char → (List Char → Bool) → Bool
  | [], _ => false
  | c :: rest, k => p c && (k rest || matchClassPlus p rest k)

/-- `[c]* k`: a possibly empty run of `p`-characters, then the continuation. -/
def matchClassStar (p : Char → Bool) : List Char → (List Char → Bool) → Bool
  | [], k => k []
  | c :: rest, k => k (c :: rest) || (p c && matchClassStar p rest k)

/-- Python's `$` without `re.MULTILINE`: end of string, or just before a
single trailing newline. -/
def matchEndDollar : List Char → Bool
  | [] => true
  | [c] => c == '\n'
  | _ :: _ :: _ => false

/-- `is_valid_email` of smart_mailer.py: `re.match` of the pattern
`^[\w\.-]+@[a-zA-Z\d\.-]+\.[a-zA-Z]{2,}$` against the whole string
(the pattern is anchored at both ends, and `{2,}` is two letters then
a run of letters). -/
def is_valid_email (email : String) : Bool :=
  matchClassPlus isLocalChar email.data fun r1 =>
    match r1 with
    | '@' :: r2 =>
      matchClassPlus isDomainChar r2 fun r3 =>
        match r3 with
        | '.' :: a :: b :: r4 =>
          a.isAlpha && b.isAlpha && matchClassStar Char.isAlpha r4 matchEndDollar
        | _ => false
    | _ => false

/-! ### Recipient rows and `read_csv` -/

/-- One row of the recipient CSV, keyed by the three required columns. -/
structure Row where
  email : String
  name : String
  department_code : String
  deriving DecidableEq, Repr

/-- `read_csv` of smart_mailer.py: keeps a row iff the department filter
matches (`'all'` or equal code) and the email is valid; an invalid email
in a matching row produces the printed warning (second component) and is
skipped. -/
def read_csv : List Row → String → List Row × List String
  | [], _ => ([], [])
  | row :: rest, dc =>
    let out := read_csv rest dc
    if dc = "all" ∨ row.department_code = dc then
      if is_valid_email row.email then
        (row :: out.1, out.2)
      else
        (out.1, ("Invalid email format: " ++ row.email ++ " - Skipping") :: out.2)
    else
      out

/-! ### CSV validation: `check_csv_file_validity`

`csv.DictReader(...).fieldnames` is `None` on an empty file (there is no
header row to read), and the first row split on commas otherwise (a blank
first line gives the empty row).  `field_names[:3]` on `None` raises
`TypeError`, embedded as `.error ()`. -/

/-- Split a character list at every occurrence of `sep`
(Python `str.split(sep)` for a one-character separator). -/
def splitAllChar (sep : Char) : List Char → List (List Char)
  | [] => [[]]
  | c :: rest =>
    if c = sep then [] :: splitAllChar sep rest
    else
      match splitAllChar sep rest with
      | [] => [[c]]
      | piece :: more => (c :: piece) :: more

/-- The header row `csv.DictReader` parses: `none` for an empty file,
otherwise the first line split on commas (`[]` for a blank first line). -/
def csvFirstRow (content : String) : Option (List String) :=
  if content = "" then none
  else
    let firstLine := ((splitAllChar '\n' content.data).headD [])
    some (if firstLine = [] then [] else (splitAllChar ',' firstLine).map String.mk)

/-- `check_csv_file_validity` of smart_mailer.py over an explicit file
system `fs`.  `.error ()` is the `TypeError` raised by `field_names[:3]`
when `fieldnames` is `None` (empty file). -/
def check_csv_file_validity (fs : String → Option String) (file_path : String) :
    Except Unit Bool :=
  if ¬ strEndsWith file_path ".csv" then .ok false
  else
    match fs file_path with
    | none => .ok false
    | some content =>
      match csvFirstRow content with
      | none => .error ()
      | some field_names =>
        .ok (field_names.take 3 = ["email", "name", "department_code"])

/-! ### Template validation: `check_txt_file_extension`

`content.find(element, start_index)` is Python `str.find`: the least
index `≥ start` where the element occurs, or `-1`; a negative `start`
counts from the end of the string (clamped at 0).  The loop threads the
found index itself (not the index after the match) into the next search,
and a marker that is not found latches the failure flag while the loop
keeps going with `start_index = -1`. -/

/-- Least index at which `sub` occurs in `cs` (occurrence = `sub` is a
prefix of the suffix starting there). -/
def findIdx (sub : List Char) : List Char → Option Nat
  | [] => if sub = [] then some 0 else none
  | c :: rest =>
    if sub.isPrefixOf (c :: rest) then some 0
    else (findIdx sub rest).map (· + 1)

/-- The effective start position of Python `str.find(sub, start)`: a
negative `start` counts from the end of the string, clamped at 0. -/
def pyStart (cs : List Char) (start : Int) : Nat :=
  if start < 0 then ((cs.length : Int) + start).toNat else start.toNat

/-- Python `str.find(sub, start)` on `cs`: the least index `≥` the
effective start at which `sub` occurs, or `-1` when absent. -/
def pyFind (cs sub : List Char) (start : Int) : Int :=
  match findIdx sub (cs.drop (pyStart cs start)) with
  | some j => ((pyStart cs start + j : Nat) : Int)
  | none => -1

/-- The scanning loop of `check_txt_file_extension`: each element is
searched from the index at which the previous element was found
(`start_index = content.find(element, start_index)`), and the result is
true iff every search succeeded along that trajectory. -/
def scanLoop (cs : List Char) : List String → Int → Bool
  | [], _ => true
  | e :: rest, start =>
    let idx := pyFind cs e.data start
    scanLoop cs rest idx && decide (idx ≠ -1)

/-- `required_elements` of `check_txt_file_extension`. -/
def required_elements : List String :=
  ["<html>", "<body>", "#name#", "#department#", "</body>", "</html>"]

/-- `check_txt_file_extension` of smart_mailer.py over an explicit file
system: extension check, existence check, then the sequential marker scan. -/
def check_txt_file_extension (fs : String → Option String) (file_path : String) :
    Bool :=
  if ¬ strEndsWith file_path ".txt" then false
  else
    match fs file_path with
    | none => false
    | some content => scanLoop content.data required_elements 0

/-- Modelled from the spec: the scan the specification describes, in which
each marker's search starts at the position AFTER the previous marker's
match (`idx + length`), so consecutive markers cannot overlap.  Kept for
comparison with `scanLoop`, which restarts at the found position itself. -/
def specScanAfterMatch (cs : List Char) : List String → Int → Bool
  | [], _ => true
  | e :: rest, start =>
    let idx := pyFind cs e.data start
    specScanAfterMatch cs rest (idx + e.data.length) && decide (idx ≠ -1)

/-! ### Template parsing: `read_email_template`

`content.split('\n', 1)` splits at the first newline into at most two
pieces; `content[1]` on the one-piece result (no newline in the file)
raises `IndexError`, embedded as `.error ()`. -/

/-- Python `content.split('\n', 1)` on a character list. -/
def splitFirst (sep : Char) : List Char → List (List Char)
  | [] => [[]]
  | c :: rest =>
    if c = sep then [[], rest]
    else
      match splitFirst sep rest with
      | [] => [[c]]
      | piece :: more => (c :: piece) :: more

/-- `read_email_template` of smart_mailer.py on the file's content:
subject = text before the first newline, body = everything after it;
`.error ()` is the `IndexError` of `content[1]` when there is no newline. -/
def read_email_template (content : String) : Except Unit (String × String) :=
  match splitFirst '\n' content.data with
  | [a, b] => .ok (String.mk a, String.mk b)
  | _ => .error ()

/-! ### Rendering: the body substitution of `send_email` -/

/-- Worker for `replaceAll`, structurally recursive on a fuel bound so
that concrete instances reduce; with `cs.length ≤ fuel` the fuel never
runs out.  At a position where (nonempty) `pat` starts, the replacement
is emitted and the scan resumes after the matched occurrence
(`(c :: rest).drop pat.length = rest.drop (pat.length - 1)`); otherwise
the character is kept and the scan moves one position right. -/
def replaceAllF (pat repl : List Char) : Nat → List Char → List Char
  | _, [] => []
  | 0, cs => cs
  | fuel + 1, c :: rest =>
    if pat.isPrefixOf (c :: rest) ∧ pat ≠ [] then
      repl ++ replaceAllF pat repl fuel (rest.drop (pat.length - 1))
    else
      c :: replaceAllF pat repl fuel rest

/-- Python `str.replace(pat, repl)`: leftmost, non-overlapping
replacement of every occurrence (for a nonempty pattern). -/
def replaceAll (pat repl cs : List Char) : List Char :=
  replaceAllF pat repl cs.length cs

/-- Does `pat` occur anywhere in `cs` as a contiguous substring? -/
def occursB (pat : List Char) : List Char → Bool
  | [] => pat.isPrefixOf []
  | c :: rest => pat.isPrefixOf (c :: rest) || occursB pat rest

/-- `TRACKING_IMAGE_URL` of smart_mailer.py. -/
def TRACKING_IMAGE_URL : String := "http://13.215.200.90/track.png"

/-- The 1×1 beacon tag `send_email` appends:
`<img src="{tracking_url}" width="1" height="1" alt=""/>`. -/
def beaconTag (url : String) : String :=
  "<img src=\"" ++ url ++ "\" width=\"1\" height=\"1\" alt=\"\"/>"

/-- The body transformation of `send_email` (lines 236–237):
`body.replace('#name#', name).replace('#department#', department)`
followed by appending the beacon tag. -/
def renderBody (body name department url : String) : String :=
  String.mk
    (replaceAll "#department#".data department.data
      (replaceAll "#name#".data name.data body.data))
    ++ beaconTag url

/-! ### Sending one message: `send_email`

Everything inside the `try:` block that can raise is the SMTP
conversation; it is embedded as an explicit outcome (`.ok ()` = the
relay accepted the message, `.error e` = some exception with text `e`).
The `except Exception` arm prints the diagnostic and returns `False`;
the function's Lean type `Bool × List String` (result, printed lines)
records that no exception escapes. -/

def send_email (transport : Except String Unit)
    (to_email name department subject body smtp_user smtp_password : String) :
    Bool × List String :=
  match transport with
  | .ok () =>
    let rendered := renderBody body name department TRACKING_IMAGE_URL
    (true, [rendered, "sent:" ++ subject ++ smtp_user ++ smtp_password])
  | .error e =>
    (false, ["Failed to send email to " ++ to_email ++ ": " ++ e])

/-! ### The dispatch loop: `send_emails_with_report` -/

/-- `DELAY_BETWEEN_EMAILS` of smart_mailer.py. -/
def DELAY_BETWEEN_EMAILS : Nat := 5

/-- Observable events of the dispatch loop, in program order. -/
inductive Ev where
  | attempt (email : String)
  | confirm (email : String)
  | sleep (seconds : Nat)
  deriving DecidableEq, Repr

/-- `sent_count[dept] = sent_count.get(dept, 0) + 1` on an
insertion-ordered association list (Python dict). -/
def bumpReport : List (String × Nat) → String → List (String × Nat)
  | [], g => [(g, 1)]
  | (k, v) :: rest, g =>
    if k = g then (k, v + 1) :: rest
    else (k, v) :: bumpReport rest g

/-- Dict lookup with default 0. -/
def reportCount : List (String × Nat) → String → Nat
  | [], _ => 0
  | (k, v) :: rest, g => if k = g then v else reportCount rest g

/-- Total of all counts in the report. -/
def sumReport (rep : List (String × Nat)) : Nat :=
  (rep.map (·.2)).sum

/-- The loop of `send_emails_with_report`, with the outcome of each
`send_email` call abstracted as an oracle `send : Row → Bool`: for each
recipient in order the message is attempted; on success the recipient's
department count is bumped, a confirmation is printed and the fixed delay
is slept; on failure neither happens and the loop continues.  Returns the
accumulated `sent_count` (which the source then prints as the report) and
the event trace. -/
def runDispatch (send : Row → Bool) :
    List Row → List (String × Nat) → List (String × Nat) × List Ev
  | [], rep => (rep, [])
  | r :: rest, rep =>
    if send r then
      let out := runDispatch send rest (bumpReport rep r.department_code)
      (out.1,
        Ev.attempt r.email :: Ev.confirm r.email ::
          Ev.sleep DELAY_BETWEEN_EMAILS :: out.2)
    else
      let out := runDispatch send rest rep
      (out.1, Ev.attempt r.email :: out.2)

/-- The emails attempted along a trace, in order. -/
def attempts (evs : List Ev) : List String :=
  evs.filterMap fun e =>
    match e with
    | Ev.attempt m => some m
    | _ => none

/-- The durations slept along a trace, in order. -/
def sleeps (evs : List Ev) : List Nat :=
  evs.filterMap fun e =>
    match e with
    | Ev.sleep n => some n
    | _ => none

/-! ### The beacon counter service: server.py

The two handlers touch one shared integer.  Each handler body is
embedded as its sequence of lock and counter actions; `track` is
`with counter_lock: counter += 1`, while `show_counter` reads `counter`
with no lock acquisition around the read. -/

/-- Atomic actions of a handler on the shared lock and counter. -/
inductive CAccess where
  | acquire
  | release
  | inc
  | read
  deriving DecidableEq, Repr

/-- Body of the `GET /track.png` handler `track`. -/
def track_body : List CAccess := [CAccess.acquire, CAccess.inc, CAccess.release]

/-- Body of the `GET /counter` handler `show_counter`. -/
def show_counter_body : List CAccess := [CAccess.read]

/-- Is every counter access (increment or read) of the action list
performed while the lock is held?  `held` is the lock state on entry. -/
def accessesUnderLock : List CAccess → Bool → Bool
  | [], _ => true
  | CAccess.acquire :: rest, _ => accessesUnderLock rest true
  | CAccess.release :: rest, _ => accessesUnderLock rest false
  | CAccess.inc :: rest, held => held && accessesUnderLock rest held
  | CAccess.read :: rest, held => held && accessesUnderLock rest held

/-- Effect of one action on the counter. -/
def execAccess (st : Nat) : CAccess → Nat
  | CAccess.inc => st + 1
  | _ => st

/-- Effect of a schedule (any interleaving of handler actions) on the
counter. -/
def execSched (st : Nat) (l : List CAccess) : Nat :=
  l.foldl execAccess st

/-- Number of increment actions in a schedule. -/
def countInc : List CAccess → Nat
  | [] => 0
  | CAccess.inc :: rest => countInc rest + 1
  | _ :: rest => countInc rest

/-- The message `show_counter` returns for a counter value. -/
def show_counter_msg (counter : Nat) : String :=
  "Image has been accessed " ++ toString counter ++ " times."

/-- A character list with no `'#'` in it (so no marker can start or end
inside it). -/
def hashFree (cs : List Char) : Bool :=
  cs.all fun c => c != '#'

/-- `sub` occurs in `cs` at index `i`. -/
def occursAtB (sub cs : List Char) (i : Nat) : Bool :=
  sub.isPrefixOf (cs.drop i)

/-- There are nondecreasing indices at which the given markers occur in
`cs`, in order, starting at or after `s`; consecutive markers may share
characters. -/
def ChainFound (cs : List Char) : List String → Nat → Prop
  | [], _ => True
  | e :: rest, s => ∃ i, s ≤ i ∧ occursAtB e.data cs i = true ∧ ChainFound cs rest i

/-! ## Helper lemmas -/

theorem occursB_append (pat x y : List Char) : occursB pat (x ++ pat ++ y) = true := by
  induction x with
  | nil =>
    simp only [List.nil_append]
    cases hpy : pat ++ y with
    | nil =>
      have hp : pat = [] := (List.append_eq_nil.mp hpy).1
      subst hp
      simp [occursB, List.isPrefixOf]
    | cons c rest =>
      have h1 : pat.isPrefixOf (c :: rest) = true := by
        rw [List.isPrefixOf_iff_prefix]
        exact hpy ▸ List.prefix_append pat y
      simp [occursB, h1]
  | cons c x' ih =>
    have hstep : occursB pat ((c :: x') ++ pat ++ y) =
        (pat.isPrefixOf (c :: (x' ++ pat ++ y)) || occursB pat (x' ++ pat ++ y)) := rfl
    rw [hstep, ih, Bool.or_true]

theorem hashFree_iff (l : List Char) : hashFree l = true ↔ ∀ c ∈ l, ¬ c = '#' := by
  simp [hashFree]

theorem hashFree_no_occurrence (pt cs : List Char) (h : ∀ c ∈ cs, ¬ c = '#') :
    occursB ('#' :: pt) cs = false := by
  induction cs with
  | nil => simp [occursB, List.isPrefixOf]
  | cons c rest ih =>
    have hc : ¬ c = '#' := h c (by simp)
    have hb : ('#' == c) = false := beq_eq_false_iff_ne.mpr fun h1 => hc h1.symm
    have ih1 := ih fun d hd => h d (List.mem_cons_of_mem _ hd)
    simp [occursB, List.isPrefixOf, hb, ih1]

theorem replaceAllF_nil (pat repl : List Char) (f : Nat) :
    replaceAllF pat repl f [] = [] := by
  cases f <;> rfl

theorem replaceAllF_fuel (pat repl : List Char) :
    ∀ f1 f2 cs, cs.length ≤ f1 → cs.length ≤ f2 →
      replaceAllF pat repl f1 cs = replaceAllF pat repl f2 cs := by
  intro f1
  induction f1 with
  | zero =>
    intro f2 cs h1 _
    have hcs : cs = [] := List.eq_nil_of_length_eq_zero (Nat.le_zero.mp h1)
    subst hcs
    rw [replaceAllF_nil, replaceAllF_nil]
  | succ f ih =>
    intro f2 cs h1 h2
    cases cs with
    | nil => rw [replaceAllF_nil, replaceAllF_nil]
    | cons c rest =>
      cases f2 with
      | zero => simp at h2
      | succ f' =>
        show (if pat.isPrefixOf (c :: rest) ∧ pat ≠ [] then
            repl ++ replaceAllF pat repl f (rest.drop (pat.length - 1))
          else c :: replaceAllF pat repl f rest) =
          (if pat.isPrefixOf (c :: rest) ∧ pat ≠ [] then
            repl ++ replaceAllF pat repl f' (rest.drop (pat.length - 1))
          else c :: replaceAllF pat repl f' rest)
        have hr : rest.length ≤ f := by simpa using h1
        have hr' : rest.length ≤ f' := by simpa using h2
        have hd : (rest.drop (pat.length - 1)).length ≤ rest.length := by
          simp [List.length_drop]
        by_cases hcond : pat.isPrefixOf (c :: rest) ∧ pat ≠ []
        · simp only [if_pos hcond]
          exact congrArg _ (ih f' _ (le_trans hd hr) (le_trans hd hr'))
        · simp only [if_neg hcond]
          exact congrArg _ (ih f' rest hr hr')

theorem replaceAll_cons_pos (pat repl : List Char) (c : Char) (rest : List Char)
    (h : pat.isPrefixOf (c :: rest) ∧ pat ≠ []) :
    replaceAll pat repl (c :: rest) =
      repl ++ replaceAll pat repl (rest.drop (pat.length - 1)) := by
  show replaceAllF pat repl (c :: rest).length (c :: rest) = _
  rw [List.length_cons]
  show (if pat.isPrefixOf (c :: rest) ∧ pat ≠ [] then
      repl ++ replaceAllF pat repl rest.length (rest.drop (pat.length - 1))
    else c :: replaceAllF pat repl rest.length rest) = _
  rw [if_pos h]
  exact congrArg _ (replaceAllF_fuel pat repl _ _ _ (by simp [List.length_drop]) le_rfl)

theorem replaceAll_cons_neg (pat repl : List Char) (c : Char) (rest : List Char)
    (h : ¬ (pat.isPrefixOf (c :: rest) ∧ pat ≠ [])) :
    replaceAll pat repl (c :: rest) = c :: replaceAll pat repl rest := by
  show replaceAllF pat repl (c :: rest).length (c :: rest) = _
  rw [List.length_cons]
  show (if pat.isPrefixOf (c :: rest) ∧ pat ≠ [] then
      repl ++ replaceAllF pat repl rest.length (rest.drop (pat.length - 1))
    else c :: replaceAllF pat repl rest.length rest) = _
  rw [if_neg h]
  rfl

theorem replaceAll_not_occurs (pat repl cs : List Char) (h : occursB pat cs = false) :
    replaceAll pat repl cs = cs := by
  induction cs with
  | nil => rfl
  | cons c rest ih =>
    have h2 : pat.isPrefixOf (c :: rest) = false ∧ occursB pat rest = false := by
      simpa [occursB, Bool.or_eq_false_iff] using h
    rw [replaceAll_cons_neg pat repl c rest fun hc => by
      rw [h2.1] at hc
      exact Bool.false_ne_true hc.1]
    rw [ih h2.2]

theorem replaceAll_head_match (pat repl y : List Char) (hne : pat ≠ []) :
    replaceAll pat repl (pat ++ y) = repl ++ replaceAll pat repl y := by
  obtain ⟨p, pt, rfl⟩ : ∃ p pt, pat = p :: pt := by
    cases pat with
    | nil => exact absurd rfl hne
    | cons p pt => exact ⟨p, pt, rfl⟩
  rw [List.cons_append]
  rw [replaceAll_cons_pos (p :: pt) repl p (pt ++ y)
    ⟨by rw [List.isPrefixOf_iff_prefix, ← List.cons_append]; exact List.prefix_append _ _,
      hne⟩]
  have hl : (p :: pt).length - 1 = pt.length := by simp
  rw [hl, List.drop_left]

theorem replaceAll_skip_clean (pt repl : List Char) :
    ∀ x rest, (∀ c ∈ x, ¬ c = '#') →
      replaceAll ('#' :: pt) repl (x ++ rest) = x ++ replaceAll ('#' :: pt) repl rest := by
  intro x
  induction x with
  | nil => simp
  | cons c x' ih =>
    intro rest h
    have hc : ¬ c = '#' := h c (by simp)
    have hb : ('#' == c) = false := beq_eq_false_iff_ne.mpr fun h1 => hc h1.symm
    rw [List.cons_append, replaceAll_cons_neg _ _ _ _ fun hcond => by
      have := hcond.1
      rw [List.isPrefixOf, hb] at this
      simp at this]
    rw [ih rest fun d hd => h d (List.mem_cons_of_mem _ hd), List.cons_append]

theorem splitFirst_no_sep (sep : Char) (cs : List Char) (h : sep ∉ cs) :
    splitFirst sep cs = [cs] := by
  induction cs with
  | nil => rfl
  | cons c rest ih =>
    have hc : ¬ c = sep := fun he => h (he ▸ List.mem_cons_self c rest)
    have ih1 := ih fun hm => h (List.mem_cons_of_mem _ hm)
    simp [splitFirst, hc, ih1]

theorem splitFirst_first_sep (sep : Char) (a b : List Char) (h : sep ∉ a) :
    splitFirst sep (a ++ sep :: b) = [a, b] := by
  induction a with
  | nil => simp [splitFirst]
  | cons c a' ih =>
    have hc : ¬ c = sep := fun he => h (he ▸ List.mem_cons_self c a')
    have ih1 := ih fun hm => h (List.mem_cons_of_mem _ hm)
    simp [splitFirst, hc, ih1]

/-! ## Claim theorems -/

/-- C10: the email-validity predicate accepts more than plain addresses:
a valid address followed by a single trailing newline is accepted
(Python's `$` also matches just before a final newline), and such a row
is therefore loaded by `read_csv` rather than skipped. -/
theorem trailing_newline_email_accepted :
    is_valid_email "a@b.com\n" = true ∧
    is_valid_email "a@b.com" = true ∧
    (⟨"a@b.com\n", "Ann", "X"⟩ : Row) ∈ (read_csv [⟨"a@b.com\n", "Ann", "X"⟩] "all").1 ∧
    "a@b.com\n" ≠ "a@b.com" := by
  refine ⟨rfl, rfl, ?_, by decide⟩
  decide

/-- C7 (code bug): the recipient-file validator does NOT always return a
boolean: on an existing, empty `.csv` file, `csv.DictReader.fieldnames`
is `None` and the slice `field_names[:3]` raises `TypeError` — embedded
as `.error ()`. -/
theorem csv_validator_raises_on_empty_file :
    check_csv_file_validity
      (fun p => if p = "maildata_empty.csv" then some "" else none)
      "maildata_empty.csv" = Except.error () := rfl

/-- C9 (counterexample): not every access to the shared counter is under
the lock: the `GET /counter` handler reads the counter without acquiring
it, while the `GET /track.png` handler does increment under the lock. -/
theorem counter_read_not_locked_counterexample :
    accessesUnderLock show_counter_body false = false ∧
    accessesUnderLock track_body false = true := ⟨rfl, rfl⟩

/-- C9 (amended): the increment of `GET /track.png` is executed under the
lock, the read of `GET /counter` is executed without it; each increment
being a single atomic action, any schedule of handler actions containing
exactly `n` increments leaves the counter at `n` (no lost updates), and
the `/counter` message embeds that value. -/
theorem counter_lock_discipline :
    accessesUnderLock track_body false = true ∧
    accessesUnderLock show_counter_body false = false ∧
    (∀ (sched : List CAccess) (st : Nat),
      execSched st sched = st + countInc sched) ∧
    (∀ n : Nat, show_counter_msg n = "Image has been accessed " ++ toString n ++ " times.") := by
  refine ⟨rfl, rfl, ?_, fun n => rfl⟩
  intro sched
  induction sched with
  | nil => intro st; simp [execSched, countInc]
  | cons a rest ih =>
    intro st
    have hstep : execSched st (a :: rest) = execSched (execAccess st a) rest := rfl
    rw [hstep, ih]
    cases a with
    | acquire => simp [execAccess, countInc]
    | release => simp [execAccess, countInc]
    | inc => simp only [execAccess, countInc]; omega
    | read => simp [execAccess, countInc]

/-- C8 (counterexample): on template content with no newline,
`content.split('\n', 1)` has a single piece and `content[1]` raises
`IndexError`: the parse fails; it does not return an empty body. -/
theorem template_without_newline_counterexample :
    read_email_template "Welcome" = Except.error () ∧
    ∀ subject bodyText : String,
      read_email_template "Welcome" ≠ Except.ok (subject, bodyText) := by
  refine ⟨rfl, ?_⟩
  intro subject bodyText h
  exact Except.noConfusion h

/-- C8 (amended): `read_email_template` splits the content at the first
newline, returning everything before it as the subject and everything
after it (embedded newlines included) as the body; on content containing
no newline the subscript of the missing second piece fails
(`IndexError`, embedded as `.error ()`) instead of yielding an empty
body. -/
theorem read_email_template_split_spec (a b : List Char) (c : String)
    (ha : '\n' ∉ a) (hc : '\n' ∉ c.data) :
    read_email_template (String.mk (a ++ '\n' :: b)) = Except.ok (String.mk a, String.mk b) ∧
    read_email_template c = Except.error () := by
  constructor
  · show (match splitFirst '\n' (a ++ '\n' :: b) with
      | [x, y] => Except.ok (String.mk x, String.mk y)
      | _ => Except.error ()) = _
    rw [splitFirst_first_sep '\n' a b ha]
  · show (match splitFirst '\n' c.data with
      | [x, y] => Except.ok (String.mk x, String.mk y)
      | _ => Except.error ()) = _
    rw [splitFirst_no_sep '\n' c.data hc]

/-- C8 witness: the split on concrete content with and without a newline. -/
theorem read_email_template_split_witness :
    read_email_template (String.mk ("Subject".data ++ '\n' :: "line1\nline2".data)) =
      Except.ok ("Subject", "line1\nline2") ∧
    read_email_template "Welcome only" = Except.error () :=
  read_email_template_split_spec "Subject".data "line1\nline2".data "Welcome only"
    (by decide) (by decide)

/-- C6: `send_email` returns `true` exactly when the SMTP transaction
succeeds; on any failure (the `except Exception` arm) it returns `false`
and prints a diagnostic in which the recipient's address occurs; its
result type records that no exception propagates to the caller. -/
theorem send_email_result_spec (t : Except String Unit)
    (to_email name dept subj body u p : String) :
    ((send_email t to_email name dept subj body u p).1 = true ↔ t = Except.ok ()) ∧
    (∀ e, t = Except.error e →
      (send_email t to_email name dept subj body u p).1 = false ∧
      ∃ msg ∈ (send_email t to_email name dept subj body u p).2,
        occursB to_email.data msg.data = true) := by
  cases t with
  | ok v =>
    cases v
    refine ⟨by simp [send_email], ?_⟩
    intro e he
    exact Except.noConfusion he
  | error e0 =>
    refine ⟨by simp [send_email], ?_⟩
    intro e _
    refine ⟨rfl, "Failed to send email to " ++ to_email ++ ": " ++ e0, by simp [send_email], ?_⟩
    have hdata : ("Failed to send email to " ++ to_email ++ ": " ++ e0).data =
        "Failed to send email to ".data ++ to_email.data ++ (": " ++ e0).data := by
      simp [String.data_append]
    rw [hdata]
    exact occursB_append to_email.data "Failed to send email to ".data (": " ++ e0).data

/-- C5: the render step of `send_email` ends with exactly the appended
beacon tag; on a body with no occurrence of either placeholder it is the
identity plus the tag; and every occurrence of `#name#` is replaced (a
body built of `'#'`-free pieces around two occurrences has both replaced
with the recipient's name). -/
theorem send_email_render_spec (body name dept url : String) :
    (∃ s : String, renderBody body name dept url = s ++ beaconTag url) ∧
    (occursB "#name#".data body.data = false →
      occursB "#department#".data body.data = false →
      renderBody body name dept url = body ++ beaconTag url) ∧
    (∀ a b c : List Char,
      hashFree a = true → hashFree b = true → hashFree c = true →
      hashFree name.data = true →
      renderBody (String.mk (a ++ "#name#".data ++ b ++ "#name#".data ++ c)) name dept url
        = String.mk (a ++ name.data ++ b ++ name.data ++ c) ++ beaconTag url) := by
  refine ⟨⟨String.mk (replaceAll "#department#".data dept.data
    (replaceAll "#name#".data name.data body.data)), rfl⟩, ?_, ?_⟩
  · intro h1 h2
    show String.mk (replaceAll "#department#".data dept.data
      (replaceAll "#name#".data name.data body.data)) ++ beaconTag url = _
    rw [replaceAll_not_occurs _ _ _ h1, replaceAll_not_occurs _ _ _ h2]
  · intro a b c ha hb hc hn
    have ha' := (hashFree_iff a).mp ha
    have hb' := (hashFree_iff b).mp hb
    have hc' := (hashFree_iff c).mp hc
    have hn' := (hashFree_iff name.data).mp hn
    show String.mk (replaceAll "#department#".data dept.data
      (replaceAll "#name#".data name.data (a ++ "#name#".data ++ b ++ "#name#".data ++ c)))
      ++ beaconTag url = _
    have hstep1 : replaceAll "#name#".data name.data
        (a ++ "#name#".data ++ b ++ "#name#".data ++ c)
        = a ++ name.data ++ b ++ name.data ++ c := by
      simp only [List.append_assoc]
      rw [replaceAll_skip_clean "name#".data name.data a _ ha']
      rw [show ("#name#".data ++ (b ++ ("#name#".data ++ c))) =
        ("#name#".data ++ (b ++ ("#name#".data ++ c))) from rfl]
      rw [replaceAll_head_match "#name#".data name.data _ (by decide)]
      rw [replaceAll_skip_clean "name#".data name.data b _ hb']
      rw [replaceAll_head_match "#name#".data name.data _ (by decide)]
      rw [replaceAll_not_occurs _ _ _ (hashFree_no_occurrence "name#".data c hc')]
    rw [hstep1]
    have hclean : ∀ d ∈ a ++ name.data ++ b ++ name.data ++ c, ¬ d = '#' := by
      simp only [List.append_assoc, List.forall_mem_append]
      exact ⟨ha', hn', hb', hn', hc'⟩
    rw [replaceAll_not_occurs _ _ _
      (hashFree_no_occurrence "department#".data _ hclean)]

/-- C5 witness: rendering a concrete two-occurrence body and a concrete
placeholder-free body. -/
theorem send_email_render_witness :
    renderBody "Hello" "Ann" "X" "u" = "Hello" ++ beaconTag "u" :=
  (send_email_render_spec "Hello" "Ann" "X" "u").2.1 (by decide) (by decide)

theorem bumpReport_count (rep : List (String × Nat)) (g g' : String) :
    reportCount (bumpReport rep g) g' =
      reportCount rep g' + (if g = g' then 1 else 0) := by
  induction rep with
  | nil =>
    by_cases h : g = g' <;> simp [bumpReport, reportCount, h]
  | cons kv rest ih =>
    obtain ⟨k, v⟩ := kv
    by_cases hkg : k = g
    · subst hkg
      by_cases hkg' : k = g' <;> simp [bumpReport, reportCount, hkg']
    · by_cases hkg' : k = g'
      · subst hkg'
        have hgg' : ¬ g = k := fun h => hkg h.symm
        simp [bumpReport, reportCount, hkg, hgg']
      · simp [bumpReport, reportCount, hkg, hkg', ih]

theorem bumpReport_sum (rep : List (String × Nat)) (g : String) :
    sumReport (bumpReport rep g) = sumReport rep + 1 := by
  induction rep with
  | nil => simp [bumpReport, sumReport]
  | cons kv rest ih =>
    obtain ⟨k, v⟩ := kv
    by_cases hkg : k = g
    · simp [bumpReport, sumReport, hkg]
      omega
    · simp only [bumpReport, sumReport, if_neg hkg, List.map_cons, List.sum_cons]
      have := ih
      simp only [sumReport] at this
      omega

theorem runDispatch_aux (send : Row → Bool) :
    ∀ (rs : List Row) (rep : List (String × Nat)),
      attempts (runDispatch send rs rep).2 = rs.map Row.email ∧
      (∀ g, reportCount (runDispatch send rs rep).1 g =
        reportCount rep g +
          (rs.filter fun r => send r && decide (r.department_code = g)).length) ∧
      sleeps (runDispatch send rs rep).2 =
        List.replicate (rs.filter fun r => send r).length DELAY_BETWEEN_EMAILS ∧
      sumReport (runDispatch send rs rep).1 =
        sumReport rep + (rs.filter fun r => send r).length := by
  intro rs
  induction rs with
  | nil =>
    intro rep
    refine ⟨rfl, fun g => by simp [runDispatch, List.filter], by simp [runDispatch, sleeps], ?_⟩
    simp [runDispatch, List.filter]
  | cons r rest ih =>
    intro rep
    by_cases hs : send r = true
    · have ih1 := ih (bumpReport rep r.department_code)
      refine ⟨?_, ?_, ?_, ?_⟩
      · simp only [runDispatch, hs, if_true, attempts, List.filterMap_cons, List.map_cons]
        exact congrArg _ ih1.1
      · intro g
        simp only [runDispatch, hs, if_true, List.filter_cons]
        rw [ih1.2.1 g, bumpReport_count]
        by_cases hg : r.department_code = g
        · simp [hs, hg]
          omega
        · have : ¬ g = r.department_code := fun h => hg h.symm
          simp [hs, hg, this]
      · simp only [runDispatch, hs, if_true, sleeps, List.filterMap_cons, List.filter_cons]
        simp only [hs, if_true, List.length_cons, List.replicate_succ]
        exact congrArg _ ih1.2.2.1
      · simp only [runDispatch, hs, if_true, List.filter_cons]
        rw [ih1.2.2.2, bumpReport_sum]
        simp [hs]
        omega
    · have hs' : send r = false := Bool.not_eq_true _ ▸ Bool.of_not_eq_true hs
      have ih1 := ih rep
      refine ⟨?_, ?_, ?_, ?_⟩
      · simp only [runDispatch, hs', if_false, Bool.false_eq_true, attempts,
          List.filterMap_cons, List.map_cons]
        exact congrArg _ ih1.1
      · intro g
        simp only [runDispatch, hs', if_false, Bool.false_eq_true, List.filter_cons]
        rw [ih1.2.1 g]
        simp [hs']
      · simp only [runDispatch, hs', if_false, Bool.false_eq_true, sleeps,
          List.filterMap_cons, List.filter_cons]
        exact ih1.2.2.1
      · simp only [runDispatch, hs', if_false, Bool.false_eq_true, List.filter_cons]
        rw [ih1.2.2.2]

/-- C1: the dispatcher attempts every recipient in loader order; the
accumulated report counts, per group code, exactly the successful sends;
exactly one fixed 5-unit sleep happens per success and none per failure;
the total of the report equals the number of successes; and in the
claim's concrete instance (3 recipients, only the 2nd failing) the
report totals 2 and the 3rd recipient is still attempted. -/
theorem dispatcher_run_spec (send : Row → Bool) (recips : List Row) :
    attempts (runDispatch send recips []).2 = recips.map Row.email ∧
    (∀ g, reportCount (runDispatch send recips []).1 g =
      (recips.filter fun r => send r && decide (r.department_code = g)).length) ∧
    sleeps (runDispatch send recips []).2 =
      List.replicate (recips.filter fun r => send r).length DELAY_BETWEEN_EMAILS ∧
    sumReport (runDispatch send recips []).1 =
      (recips.filter fun r => send r).length ∧
    (sumReport (runDispatch (fun r => decide (r.name ≠ "Bob"))
        [⟨"a@b.com", "Ann", "X"⟩, ⟨"b@b.com", "Bob", "X"⟩, ⟨"c@d.com", "Cid", "Y"⟩] []).1 = 2 ∧
      Ev.attempt "c@d.com" ∈ (runDispatch (fun r => decide (r.name ≠ "Bob"))
        [⟨"a@b.com", "Ann", "X"⟩, ⟨"b@b.com", "Bob", "X"⟩, ⟨"c@d.com", "Cid", "Y"⟩] []).2) := by
  have h := runDispatch_aux send recips []
  refine ⟨h.1, ?_, h.2.2.1, ?_, by decide, by decide⟩
  · intro g
    have := h.2.1 g
    simpa [reportCount] using this
  · have := h.2.2.2
    simpa [sumReport] using this

/-- C2 (counterexample): a recipient file whose header's first three
column names are exactly `email, name, group_code` — the names the claim
requires — exists, ends in `.csv`, and is parsed to that header, yet the
validator rejects it (the source compares against
`['email', 'name', 'department_code']`). -/
theorem csv_header_name_counterexample :
    check_csv_file_validity
      (fun p => if p = "maildata.csv" then
        some "email,name,group_code\na@b.com,Ann,X" else none)
      "maildata.csv" = Except.ok false ∧
    strEndsWith "maildata.csv" ".csv" = true ∧
    ((fun p => if p = "maildata.csv" then
        some "email,name,group_code\na@b.com,Ann,X" else none) "maildata.csv").isSome
      = true ∧
    (csvFirstRow "email,name,group_code\na@b.com,Ann,X").map (List.take 3) =
      some ["email", "name", "group_code"] :=
  ⟨rfl, rfl, rfl, rfl⟩

/-- C2 (amended): the recipient-file validator returns true iff the file
exists, has the `.csv` extension, and the parsed header's first three
column names are exactly `email, name, department_code` in that order
(extra trailing columns tolerated); an empty file makes it raise instead
of returning. -/
theorem check_csv_validity_iff (fs : String → Option String) (path : String) :
    check_csv_file_validity fs path = Except.ok true ↔
      (strEndsWith path ".csv" = true ∧
        ∃ content, fs path = some content ∧
          (csvFirstRow content).map (List.take 3) =
            some ["email", "name", "department_code"]) := by
  unfold check_csv_file_validity
  by_cases h1 : strEndsWith path ".csv" = true
  · cases hfs : fs path with
    | none => simp [h1, hfs]
    | some content =>
      cases hcr : csvFirstRow content with
      | none => simp [h1, hfs, hcr]
      | some fields => simp [h1, hfs, hcr]
  · have h1' : strEndsWith path ".csv" = false := by
      cases h : strEndsWith path ".csv"
      · rfl
      · exact absurd h h1
    simp [h1']

theorem read_csv_mem_iff (dc : String) (row : Row) :
    ∀ rows, row ∈ (read_csv rows dc).1 ↔
      (row ∈ rows ∧ (dc = "all" ∨ row.department_code = dc) ∧
        is_valid_email row.email = true) := by
  intro rows
  induction rows with
  | nil => simp [read_csv]
  | cons r rest ih =>
    by_cases hc : dc = "all" ∨ r.department_code = dc
    · by_cases hv : is_valid_email r.email = true
      · simp only [read_csv, if_pos hc, hv, if_true, List.mem_cons]
        constructor
        · rintro (rfl | hm)
          · exact ⟨Or.inl rfl, hc, hv⟩
          · obtain ⟨hm', hC, hV⟩ := ih.mp hm
            exact ⟨Or.inr hm', hC, hV⟩
        · rintro ⟨rfl | hm, hC, hV⟩
          · exact Or.inl rfl
          · exact Or.inr (ih.mpr ⟨hm, hC, hV⟩)
      · have hv' : is_valid_email r.email = false := by
          cases h : is_valid_email r.email
          · rfl
          · exact absurd h hv
        simp only [read_csv, if_pos hc, hv', Bool.false_eq_true, if_false, List.mem_cons]
        constructor
        · intro hm
          obtain ⟨hm', hC, hV⟩ := ih.mp hm
          exact ⟨Or.inr hm', hC, hV⟩
        · rintro ⟨rfl | hm, hC, hV⟩
          · exact absurd hV hv
          · exact ih.mpr ⟨hm, hC, hV⟩
    · simp only [read_csv, if_neg hc, List.mem_cons]
      constructor
      · intro hm
        obtain ⟨hm', hC, hV⟩ := ih.mp hm
        exact ⟨Or.inr hm', hC, hV⟩
      · rintro ⟨rfl | hm, hC, hV⟩
        · exact absurd hC hc
        · exact ih.mpr ⟨hm, hC, hV⟩

theorem read_csv_warn (dc : String) :
    ∀ rows (row : Row), row ∈ rows →
      (dc = "all" ∨ row.department_code = dc) →
      is_valid_email row.email = false →
      ("Invalid email format: " ++ row.email ++ " - Skipping") ∈ (read_csv rows dc).2 := by
  intro rows
  induction rows with
  | nil => intro row hm; exact absurd hm (List.not_mem_nil row)
  | cons r rest ih =>
    intro row hmem hC hV
    rcases List.mem_cons.mp hmem with rfl | hm
    · simp [read_csv, if_pos hC, hV]
    · have htail := ih row hm hC hV
      by_cases hc : dc = "all" ∨ r.department_code = dc
      · by_cases hv : is_valid_email r.email = true
        · simpa [read_csv, if_pos hc, hv] using htail
        · have hv' : is_valid_email r.email = false := by
            cases h : is_valid_email r.email
            · rfl
            · exact absurd h hv
          simp only [read_csv, if_pos hc, hv', Bool.false_eq_true, if_false]
          exact List.mem_cons_of_mem _ htail
      · simpa [read_csv, if_neg hc] using htail

/-- C3: a row of the recipient file appears in the loaded set iff the
group filter matches (`"all"` or equal code) and its email satisfies
`is_valid_email` (the source's anchored `local@domain.tld` pattern);
a matching row failing only the email check produces the printed warning
and is skipped non-fatally; sample inputs pin down the pattern's classes
(word chars/dot/hyphen local part, alphanumeric/dot/hyphen domain,
2+-letter TLD). -/
theorem read_csv_membership_spec (rows : List Row) (dc : String) (row : Row)
    (hrow : row ∈ rows) :
    (row ∈ (read_csv rows dc).1 ↔
      ((dc = "all" ∨ row.department_code = dc) ∧ is_valid_email row.email = true)) ∧
    ((dc = "all" ∨ row.department_code = dc) → is_valid_email row.email = false →
      ("Invalid email format: " ++ row.email ++ " - Skipping") ∈ (read_csv rows dc).2) ∧
    is_valid_email "ann-b.c_d@mail-srv.example.com" = true ∧
    is_valid_email "a@b.c" = false ∧
    is_valid_email "a@b" = false ∧
    is_valid_email "@b.com" = false ∧
    is_valid_email "a b@c.com" = false := by
  refine ⟨?_, ?_, rfl, rfl, rfl, rfl, rfl⟩
  · rw [read_csv_mem_iff dc row rows]
    constructor
    · rintro ⟨_, hC, hV⟩
      exact ⟨hC, hV⟩
    · rintro ⟨hC, hV⟩
      exact ⟨hrow, hC, hV⟩
  · intro hC hV
    exact read_csv_warn dc rows row hrow hC hV

/-- C3 witness: loading a concrete one-row file with a matching filter. -/
theorem read_csv_membership_witness :
    (⟨"a@b.com", "Ann", "X"⟩ : Row) ∈ (read_csv [⟨"a@b.com", "Ann", "X"⟩] "X").1 := by
  have h := read_csv_membership_spec [⟨"a@b.com", "Ann", "X"⟩] "X"
    ⟨"a@b.com", "Ann", "X"⟩ (by decide)
  exact h.1.mpr (by decide)

theorem findIdx_some_spec (sub : List Char) :
    ∀ cs j, findIdx sub cs = some j →
      occursAtB sub cs j = true ∧ ∀ k, k < j → occursAtB sub cs k = false := by
  intro cs
  induction cs with
  | nil =>
    intro j h
    by_cases hs : sub = []
    · subst hs
      have hj : j = 0 := by
        simp [findIdx] at h
        omega
      subst hj
      exact ⟨rfl, fun k hk => absurd hk (Nat.not_lt_zero k)⟩
    · simp [findIdx, hs] at h
  | cons c rest ih =>
    intro j h
    by_cases hp : sub <+: (c :: rest)
    · have hj : j = 0 := by
        simp [findIdx, hp] at h
        omega
      subst hj
      exact ⟨by simpa [occursAtB] using hp,
        fun k hk => absurd hk (Nat.not_lt_zero k)⟩
    · rw [show findIdx sub (c :: rest) =
        (if sub.isPrefixOf (c :: rest) then some 0
          else (findIdx sub rest).map (· + 1)) from rfl] at h
      simp only [List.isPrefixOf_iff_prefix, hp, if_false, Option.map_eq_some'] at h
      obtain ⟨j0, hj0, rfl⟩ := h
      obtain ⟨hocc, hmin⟩ := ih j0 hj0
      refine ⟨by simpa [occursAtB, List.drop_succ_cons] using hocc, ?_⟩
      intro k hk
      cases k with
      | zero =>
        have hf : sub.isPrefixOf (c :: rest) = false := by
          cases h' : sub.isPrefixOf (c :: rest)
          · rfl
          · exact absurd (List.isPrefixOf_iff_prefix.mp h') hp
        simpa [occursAtB] using hf
      | succ k' =>
        have hk' : k' < j0 := by omega
        simpa [occursAtB, List.drop_succ_cons] using hmin k' hk'

theorem findIdx_none_spec (sub : List Char) :
    ∀ cs, findIdx sub cs = none → ∀ k, occursAtB sub cs k = false := by
  intro cs
  induction cs with
  | nil =>
    intro h k
    by_cases hs : sub = []
    · subst hs
      simp [findIdx] at h
    · obtain ⟨d, ds, rfl⟩ : ∃ d ds, sub = d :: ds := by
        cases sub with
        | nil => exact absurd rfl hs
        | cons d ds => exact ⟨d, ds, rfl⟩
      simp [occursAtB, List.isPrefixOf]
  | cons c rest ih =>
    intro h k
    by_cases hp : sub <+: (c :: rest)
    · simp [findIdx, hp] at h
    · rw [show findIdx sub (c :: rest) =
        (if sub.isPrefixOf (c :: rest) then some 0
          else (findIdx sub rest).map (· + 1)) from rfl] at h
      simp only [List.isPrefixOf_iff_prefix, hp, if_false, Option.map_eq_none'] at h
      cases k with
      | zero =>
        have hf : sub.isPrefixOf (c :: rest) = false := by
          cases h' : sub.isPrefixOf (c :: rest)
          · rfl
          · exact absurd (List.isPrefixOf_iff_prefix.mp h') hp
        simpa [occursAtB] using hf
      | succ k' => simpa [occursAtB, List.drop_succ_cons] using ih h k'

theorem pyFind_nat_spec (cs sub : List Char) (s : Nat) :
    (pyFind cs sub (s : Int) = -1 → ∀ k, s ≤ k → occursAtB sub cs k = false) ∧
    (pyFind cs sub (s : Int) ≠ -1 →
      ∃ j : Nat, pyFind cs sub (s : Int) = (j : Int) ∧ s ≤ j ∧
        occursAtB sub cs j = true ∧
        ∀ k, s ≤ k → k < j → occursAtB sub cs k = false) := by
  have heff : pyStart cs (s : Int) = s := by
    unfold pyStart
    rw [if_neg (by omega)]
    omega
  have hdropk : ∀ k, s ≤ k → cs.drop k = (cs.drop s).drop (k - s) := by
    intro k hk
    rw [List.drop_drop]
    congr 1
    omega
  cases hfi : findIdx sub (cs.drop s) with
  | some j0 =>
    have hval : pyFind cs sub (s : Int) = ((s + j0 : Nat) : Int) := by
      unfold pyFind
      rw [heff, hfi]
    constructor
    · intro h
      rw [hval] at h
      omega
    · intro _
      obtain ⟨hocc, hmin⟩ := findIdx_some_spec sub (cs.drop s) j0 hfi
      refine ⟨s + j0, hval, by omega, ?_, ?_⟩
      · unfold occursAtB
        rw [hdropk (s + j0) (by omega)]
        have hsub : s + j0 - s = j0 := by omega
        rw [hsub]
        exact hocc
      · intro k hsk hkj
        unfold occursAtB
        rw [hdropk k hsk]
        exact hmin (k - s) (by omega)
  | none =>
    have hval : pyFind cs sub (s : Int) = -1 := by
      unfold pyFind
      rw [heff, hfi]
    constructor
    · intro _ k hk
      unfold occursAtB
      rw [hdropk k hk]
      exact findIdx_none_spec sub (cs.drop s) hfi (k - s)
    · intro h
      exact absurd hval h

theorem chainFound_mono (cs : List Char) (elems : List String) (i j : Nat)
    (hji : j ≤ i) : ChainFound cs elems i → ChainFound cs elems j := by
  cases elems with
  | nil => intro h; exact h
  | cons e rest =>
    rintro ⟨k, hik, hocc, hch⟩
    exact ⟨k, le_trans hji hik, hocc, hch⟩

theorem scanLoop_iff_chain (cs : List Char) :
    ∀ (elems : List String) (s : Nat),
      scanLoop cs elems (s : Int) = true ↔ ChainFound cs elems s := by
  intro elems
  induction elems with
  | nil =>
    intro s
    simp [scanLoop, ChainFound]
  | cons e rest ih =>
    intro s
    constructor
    · intro h
      simp only [scanLoop, Bool.and_eq_true, decide_eq_true_eq] at h
      obtain ⟨j, hj_eq, hsj, hocc, _⟩ := (pyFind_nat_spec cs e.data s).2 h.2
      have h1 : scanLoop cs rest ((j : Nat) : Int) = true := hj_eq ▸ h.1
      exact ⟨j, hsj, hocc, (ih j).mp h1⟩
    · rintro ⟨i, hsi, hocc, hchain⟩
      have hne : pyFind cs e.data (s : Int) ≠ -1 := by
        intro hneg
        have hf := (pyFind_nat_spec cs e.data s).1 hneg i hsi
        rw [hocc] at hf
        exact Bool.noConfusion hf
      obtain ⟨j, hj_eq, hsj, _, hmin⟩ := (pyFind_nat_spec cs e.data s).2 hne
      have hji : j ≤ i := by
        by_contra hlt
        push_neg at hlt
        have hf := hmin i hsi hlt
        rw [hocc] at hf
        exact Bool.noConfusion hf
      have h1 : scanLoop cs rest ((j : Nat) : Int) = true :=
        (ih j).mpr (chainFound_mono cs rest i j hji hchain)
      simp only [scanLoop, Bool.and_eq_true, decide_eq_true_eq]
      exact ⟨hj_eq ▸ h1, hne⟩

/-- C4 (counterexample): a template whose markers overlap — `#name#` and
`#department#` share the `#` between them — is accepted by the validator
(the next search restarts AT the previous match's found index), while
the scan the claim describes, restarting AFTER the previous match, fails
on the same content: the claimed iff is false on this file. -/
theorem template_scan_overlap_counterexample :
    check_txt_file_extension
      (fun p => if p = "template.txt" then
        some "<html><body>#name#department#</body></html>" else none)
      "template.txt" = true ∧
    specScanAfterMatch "<html><body>#name#department#</body></html>".data
      required_elements 0 = false :=
  ⟨rfl, rfl⟩

/-- C4 (amended): the template validator returns true iff the file exists,
ends in `.txt`, and the six markers are found by a sequential forward
scan in which each marker's search starts at the POSITION OF the previous
marker's match (so consecutive markers may share characters);
equivalently, iff there are nondecreasing indices at which the six
markers occur in order. -/
theorem check_txt_scan_characterization (fs : String → Option String) (path : String) :
    check_txt_file_extension fs path = true ↔
      (strEndsWith path ".txt" = true ∧
        ∃ content, fs path = some content ∧
          ChainFound content.data required_elements 0) := by
  unfold check_txt_file_extension
  by_cases h1 : strEndsWith path ".txt" = true
  · cases hfs : fs path with
    | none => simp [h1, hfs]
    | some content =>
      have hchain := scanLoop_iff_chain content.data required_elements 0
      simp only [h1, not_true, if_false, hfs, Option.some.injEq]
      constructor
      · intro h
        exact ⟨trivial, content, rfl, hchain.mp h⟩
      · rintro ⟨_, content', hcc, hch⟩
        cases hcc
        exact hchain.mpr hch
  · have h1' : strEndsWith path ".txt" = false := by
      cases h : strEndsWith path ".txt"
      · rfl
      · exact absurd h h1
    simp [h1']

end SmartMailer
